import Mathlib

/-
Verification development for the currency-autocomplete widget.

Shallow embedding of:
  * src/src/types            (Suggestion, Country record shapes)
  * src/src/services/mockedApi/index.ts   (fetchSuggestions and its filtering)
  * src/src/components/AutoComplete/index.tsx
      (widget state, keyboard/pointer handlers, debounced fetch effect,
       highlightMatch)

JavaScript strings are modelled as Lean `String`.  JavaScript's Unicode
case conversion is modelled on an explicit fragment — the ASCII letters,
the Latin-1 simple case pairs, and the multi-character uppercase
expansions used in this development ('ß' → "SS", the fi/fl ligatures) —
with characters outside the fragment left unchanged; the
case-insensitivity theorems therefore quantify only over ASCII inputs,
and a counterexample exhibits full-Unicode uppercasing breaking the
spec's case-insensitivity claim.
Asynchronous code is modelled as an explicit event-driven state machine:
each browser event (keystroke, debounce timer firing, promise settling,
pointer click) is one transition of a total step function.
-/

namespace Autocomplete

/-! ## Characters and case-insensitive string operations -/

/-- Characters in the ASCII range, the case fragment over which the
case-insensitivity theorems quantify. -/
def asciiChar (c : Char) : Bool := decide (c.toNat ≤ 127)

/-- Strings of ASCII characters. -/
def asciiStr (s : String) : Bool := s.data.all asciiChar

/-- Model of JavaScript per-character lowercasing on the modelled fragment:
the ASCII letters and the Latin-1 simple case pairs (À–Þ except ×) map to
their lowercase partner 32 code points up; characters outside the fragment
are left unchanged (the theorems below quantify only over the fragment). -/
def lowChar (c : Char) : Char :=
  if (65 ≤ c.toNat ∧ c.toNat ≤ 90) ∨ (192 ≤ c.toNat ∧ c.toNat ≤ 222 ∧ c.toNat ≠ 215) then
    Char.ofNat (c.toNat + 32)
  else c

/-- Model of JavaScript per-character uppercasing, which can expand one
character to several: the ASCII letters and the Latin-1 simple pairs (à–þ
except ÷, and except ÿ whose uppercase leaves Latin-1), plus the full
expansions 'ß' → "SS" and the ligatures 'ﬁ'/'ﬂ' → "FI"/"FL"; characters
outside the fragment are left unchanged. -/
def upChar (c : Char) : List Char :=
  if c = 'ß' then ['S', 'S']
  else if c = 'ﬁ' then ['F', 'I']
  else if c = 'ﬂ' then ['F', 'L']
  else if (97 ≤ c.toNat ∧ c.toNat ≤ 122) ∨ (224 ≤ c.toNat ∧ c.toNat ≤ 254 ∧ c.toNat ≠ 247) then
    [Char.ofNat (c.toNat - 32)]
  else [c]

/-- Model of JavaScript `String.prototype.toLowerCase` (modelled fragment). -/
def strLower (s : String) : String := ⟨s.data.map lowChar⟩

/-- Model of JavaScript `String.prototype.toUpperCase` (modelled fragment);
a flat map, since one character can uppercase to several. -/
def strUpper (s : String) : String := ⟨s.data.flatMap upChar⟩

/-- Exact positional character match: `leadsEq n h` holds when `n` matches the
leading characters of `h`. -/
def leadsEq : List Char → List Char → Bool
  | [], _ => true
  | _ :: _, [] => false
  | a :: as, b :: bs => (a == b) && leadsEq as bs

/-- Exact substring containment of `n` in `h`, the semantics of JavaScript
`String.prototype.includes`. -/
def subList (n : List Char) : List Char → Bool
  | [] => n.isEmpty
  | b :: bs => leadsEq n (b :: bs) || subList n bs

/-- Model of JavaScript `hay.includes(needle)`. -/
def strIncludes (hay needle : String) : Bool := subList needle.data hay.data

end Autocomplete

namespace Types

/-- Shape of one suggestion, from `src/src/types` (`Suggestion`). -/
structure Suggestion where
  id : String
  name : String
deriving DecidableEq

/-- Shape of one currency record, the value type of `Country.currencies`. -/
structure Currency where
  name : String
  symbol : String
deriving DecidableEq

/-- Shape of one country record, from `src/src/types` (`Country`).
`currencies` is an optional map; JavaScript `Object.entries` iterates it in
insertion order, so it is modelled as an ordered association list. -/
structure Country where
  flag : String
  commonName : String
  currencies : Option (List (String × Currency))
deriving DecidableEq

end Types

namespace MockedApi

open Autocomplete Types

/-- Expansion of one country into suggestions, the `flatMap` body of
`fetchSuggestions`: a country without a currencies map contributes nothing,
otherwise each `(code, currency)` entry becomes one suggestion whose label is
the template literal of the source. -/
def countrySuggestions (c : Country) : List Suggestion :=
  match c.currencies with
  | none => []
  | some entries =>
      entries.map fun e => ⟨e.1, c.flag ++ " " ++ e.2.name ++ " (" ++ e.2.symbol ++ ")"⟩

/-- Suggestions built from the whole fetched dataset, before filtering. -/
def buildSuggestions (countries : List Country) : List Suggestion :=
  countries.flatMap countrySuggestions

/-- Outcome of the remote `fetch` + `response.json()` pair, which is external
to the repository: either a decoded country array, or any network/parse
failure (both `fetch` rejection and `json()` rejection land in the same
`catch`). -/
inductive FetchOutcome where
  | success (countries : List Country)
  | failure
deriving DecidableEq

/-- Observable result of `fetchSuggestions`: the resolved suggestion list and
how many times `console.error` was invoked. -/
structure FetchReply where
  suggestions : List Suggestion
  logged : Nat
deriving DecidableEq

/-- Filter predicate of `fetchSuggestions`:
`suggestion.name.toLowerCase().includes(query.toLowerCase())`. -/
def nameMatches (label q : String) : Bool := strIncludes (strLower label) (strLower q)

/-- Embedding of `fetchSuggestions` from `src/src/services/mockedApi/index.ts`,
parameterised by the outcome of the external network call. On success the
full dataset is expanded and filtered client-side; on failure the error is
caught, logged once, and the empty list is returned. -/
def fetchSuggestions (outcome : FetchOutcome) (query : String) : FetchReply :=
  match outcome with
  | .success countries =>
      ⟨(buildSuggestions countries).filter (fun s => nameMatches s.name query), 0⟩
  | .failure => ⟨[], 1⟩

end MockedApi

namespace Autocomplete

open Types

/-! ## highlightMatch

The source builds `new RegExp('(' + query + ')', 'gi')` from the raw query,
splits the label on it and marks the capture parts.  The RegExp constructor
is a platform primitive; its pattern check is modelled by `regexScan`, a
scanner for the ECMAScript pattern errors that terminate construction of
patterns of this shape: an unterminated group, an unmatched `)`, an
unterminated character class, and a trailing backslash.  Every pattern
`regexScan` rejects is rejected by the JavaScript constructor.  The split
semantics is modelled for queries of ASCII characters without regex
metacharacters: there the pattern denotes a literal match, and the
case-insensitive flag's canonicalization (simple per-character uppercasing,
which never maps a non-ASCII character into ASCII) coincides with ASCII
lowercase comparison even against arbitrary non-ASCII label characters.
Queries outside that fragment — metacharacter-free but non-ASCII ones
included, whose canonicalization the case fragment does not cover — map to
`HMResult.unmodelled` rather than being given semantics that could diverge
from the program.
-/

/-- Characters that are metacharacters inside a JavaScript regular
expression pattern. -/
def jsMetaChar (c : Char) : Bool :=
  ['\\', '^', '$', '.', '*', '+', '?', '(', ')', '[', ']', '{', '}', '|'].contains c

/-- Queries that denote themselves literally inside the pattern. -/
def litQuery (q : String) : Bool := q.data.all fun c => !jsMetaChar c

/-- Scanner for the modelled ECMAScript pattern construction errors; `d` counts
open groups and `inClass` tracks an open character class. -/
def regexScan : List Char → Nat → Bool → Bool
  | [], d, inClass => decide (d = 0) && !inClass
  | c :: cs, d, inClass =>
    if c = '\\' then
      match cs with
      | [] => false
      | _ :: cs2 => regexScan cs2 d inClass
    else if inClass then
      if c = ']' then regexScan cs d false else regexScan cs d true
    else if c = '[' then regexScan cs d true
    else if c = '(' then regexScan cs (d + 1) false
    else if c = ')' then
      match d with
      | 0 => false
      | d2 + 1 => regexScan cs d2 false
    else regexScan cs d false

/-- Group/class well-formedness of a whole pattern. -/
def regexOk (pat : String) : Bool := regexScan pat.data 0 false

/-- Case-insensitive positional match: the query `q` matches the leading
characters of `t`. -/
def ciLeads : List Char → List Char → Bool
  | [], _ => true
  | _ :: _, [] => false
  | p :: ps, t :: ts => (lowChar p == lowChar t) && ciLeads ps ts

/-- Leftmost case-insensitive occurrence of `q` in a text, returning the
plain leading slice, the matched slice (original casing) and the remainder; this is
one split step of `text.split(/(q)/gi)` for a literal `q`. -/
def findOcc (q : List Char) : List Char → Option (List Char × List Char × List Char)
  | [] => none
  | t :: ts =>
    if ciLeads q (t :: ts) then some ([], (t :: ts).take q.length, (t :: ts).drop q.length)
    else
      match findOcc q ts with
      | none => none
      | some (p, m, r) => some (t :: p, m, r)

/-- Fuelled iteration of `findOcc`, producing the alternating
(plain, matched) decomposition that `split` with a capturing group yields;
the fuel is only a termination device and `hlPieces` supplies enough of it. -/
def hlSplitF : Nat → List Char → List Char → List (List Char × Bool)
  | 0, _, t => [(t, false)]
  | fuel + 1, q, t =>
    match findOcc q t with
    | none => [(t, false)]
    | some (p, m, r) => (p, false) :: (m, true) :: hlSplitF fuel q r

/-- Decomposition of a text into plain and matched slices for a literal
query. -/
def hlPieces (q t : List Char) : List (List Char × Bool) := hlSplitF (t.length + 1) q t

/-- Rendered piece: plain text, or text wrapped in a `<mark>` element. -/
inductive HLPiece where
  | plain (s : String)
  | marked (s : String)
deriving DecidableEq

/-- Observable outcome of `highlightMatch`: a rendered piece list, a
`SyntaxError` thrown by the RegExp constructor, or behaviour outside the
modelled (literal-query) fragment. -/
inductive HMResult where
  | ok (ps : List HLPiece)
  | regexInvalid
  | unmodelled
deriving DecidableEq

/-- Conversion of a split slice to its rendered piece: capture slices are
marked (the source's `regex.test(part)` is true exactly on them when the
parts are tested in order), the rest stay plain. -/
def toHLPiece (pc : List Char × Bool) : HLPiece :=
  if pc.2 then .marked ⟨pc.1⟩ else .plain ⟨pc.1⟩

/-- Embedding of `highlightMatch` from the AutoComplete component: an empty
query renders nothing; otherwise the pattern `'(' + query + ')'` is
constructed (which can throw), and for ASCII literal queries the label is
split on each case-insensitive occurrence with the matched slices marked;
valid patterns outside that fragment are not given semantics. -/
def highlightMatch (text q : String) : HMResult :=
  if q.length > 0 then
    if regexOk ("(" ++ q ++ ")") = false then .regexInvalid
    else if litQuery q && asciiStr q then .ok ((hlPieces q.data text.data).map toHLPiece)
    else .unmodelled
  else .ok []

/-- Text content of a rendered piece. -/
def pieceText : HLPiece → String
  | .plain s => s
  | .marked s => s

/-- Concatenated text of a rendered piece list. -/
def piecesText (ps : List HLPiece) : String := ps.foldr (fun p acc => pieceText p ++ acc) ""

/-- Case-insensitive occurrence test: some suffix of the text starts with a
case-insensitive copy of `q`. -/
def hasOcc (q : List Char) : List Char → Bool
  | [] => ciLeads q []
  | t :: ts => ciLeads q (t :: ts) || hasOcc q ts

/-- String-level case-insensitive occurrence test. -/
def hasOccStr (q p : String) : Bool := hasOcc q.data p.data

/-- Concatenation of the slices of a split decomposition. -/
def joinSlices (ps : List (List Char × Bool)) : List Char :=
  ps.foldr (fun pc acc => pc.1 ++ acc) []

end Autocomplete

namespace Autocomplete

open Types

/-! ## Widget state machine

State fields mirror the `useState` hooks of the `Autocomplete` component,
plus bookkeeping that makes the asynchronous behaviour observable:
`pending` counts in-flight fetches (none are ever cancelled), `issued`
counts every fetch ever started, `fetchLogs` counts the component's
`console.error` calls, and `crashed` records that a handler threw a
`TypeError` (after which the widget is gone and ignores further events).

`debounced` is the value produced by the `useDebounce` hook.  The hook's
file is not under `src/`; its update transition (`WEvent.debounce`) is
modelled from the spec. -/
structure WidgetState where
  query : String
  debounced : String
  suggestions : List Suggestion
  isLoading : Bool
  selectedIndex : Int
  isSelectionMade : Bool
  pending : Nat
  issued : Nat
  fetchLogs : Nat
  crashed : Bool
deriving DecidableEq

/-- Initial state of the mounted component. -/
def initState : WidgetState :=
  { query := "", debounced := "", suggestions := [], isLoading := false
    selectedIndex := -1, isSelectionMade := false, pending := 0, issued := 0
    fetchLogs := 0, crashed := false }

/-- Keys the keydown handler distinguishes. -/
inductive Key where
  | arrowDown
  | arrowUp
  | enter
  | other
deriving DecidableEq

/-- Discrete events of the single-threaded UI runtime.

`input s` is a change event leaving text `s` in the input.
`debounce` is the debounce timer firing.  Modelled from the spec: the
`useDebounce` hook (absent from `src/`) exposes the most recent value that
has stayed unchanged for the delay, so when its trailing-edge timer fires
the debounced value becomes the current query.
`keyDown k` is a keydown on the input.
`click i` is a pointer click on the i-th rendered suggestion.
`settle r` is an in-flight fetch settling, with `some data` a resolution
and `none` a rejection; no ordering among in-flight fetches is assumed. -/
inductive WEvent where
  | input (s : String)
  | debounce
  | keyDown (k : Key)
  | click (i : Nat)
  | settle (r : Option (List Suggestion))
deriving DecidableEq

/-- Embedding of `fetchSuggestionsHandler`: for an empty query or a made
selection it clears the list and returns, otherwise it starts a fetch
(sets loading, and the fetch stays pending until its `settle` event). -/
def fetchSuggestionsHandler (s : WidgetState) (searchQuery : String) : WidgetState :=
  if searchQuery = "" ∨ s.isSelectionMade then { s with suggestions := [] }
  else { s with isLoading := true, pending := s.pending + 1, issued := s.issued + 1 }

/-- Embedding of the `useEffect` body reacting to `debouncedQuery`:
`if (!isSelectionMade && debouncedQuery) fetchSuggestionsHandler(debouncedQuery)`. -/
def debouncedQueryEffect (s : WidgetState) : WidgetState :=
  if s.isSelectionMade = false ∧ s.debounced ≠ "" then fetchSuggestionsHandler s s.debounced
  else s

/-- Effect scheduling: the effect body runs after an event exactly when one
of its dependencies changed (`debouncedQuery`, `isSelectionMade`, and the
`useCallback` identity of the handler, which itself depends only on
`isSelectionMade`). -/
def maybeEffect (old new : WidgetState) : WidgetState :=
  if old.debounced = new.debounced ∧ old.isSelectionMade = new.isSelectionMade then new
  else debouncedQueryEffect new

/-- Suggestions actually rendered: the list element is mounted only when the
query is non-empty and the suggestion list is non-empty. -/
def renderedList (s : WidgetState) : List Suggestion :=
  if s.query ≠ "" ∧ s.suggestions ≠ [] then s.suggestions else []

/-- Common commit effect of Enter and click: freeze the suggestion's label
as the query, clear the list, mark the selection as made. -/
def commitSuggestion (s : WidgetState) (sug : Suggestion) : WidgetState :=
  { s with query := sug.name, suggestions := [], isSelectionMade := true }

/-- Embedding of `handleInputChange`: the keystroke updates the query
immediately, resets the highlight and clears the selection flag. -/
def handleInputChange (s : WidgetState) (value : String) : WidgetState :=
  maybeEffect s { s with query := value, selectedIndex := -1, isSelectionMade := false }

/-- Embedding of `handleKeyDown`.  ArrowDown and ArrowUp clamp the highlight
index; Enter with a non-negative index reads `suggestions[selectedIndex].name`,
which is a `TypeError` (`crashed`) when the index is out of bounds. -/
def handleKeyDown (s : WidgetState) (k : Key) : WidgetState :=
  match k with
  | .arrowDown =>
      { s with selectedIndex :=
          if s.selectedIndex < (s.suggestions.length : Int) - 1 then s.selectedIndex + 1
          else s.selectedIndex }
  | .arrowUp =>
      { s with selectedIndex := if s.selectedIndex > -1 then s.selectedIndex - 1 else -1 }
  | .enter =>
      if s.selectedIndex ≥ 0 then
        match s.suggestions.get? s.selectedIndex.toNat with
        | none => { s with crashed := true }
        | some sug => maybeEffect s (commitSuggestion s sug)
      else s
  | .other => s

/-- Embedding of `handleSuggestionClick`, reachable only through a rendered
list item (the input-refocus side effect has no state content). -/
def handleSuggestionClick (s : WidgetState) (i : Nat) : WidgetState :=
  match (renderedList s).get? i with
  | none => s
  | some sug => maybeEffect s (commitSuggestion s sug)

/-- One transition of the widget per browser event.  A crashed widget is
unmounted and ignores events.  A `settle` event consumes one in-flight
fetch: a resolution replaces the suggestion list wholesale, a rejection is
logged; both clear the loading flag (the `finally` block). -/
def step (s : WidgetState) (e : WEvent) : WidgetState :=
  if s.crashed then s
  else
    match e with
    | .input q => handleInputChange s q
    | .debounce => maybeEffect s { s with debounced := s.query }
    | .keyDown k => handleKeyDown s k
    | .click i => handleSuggestionClick s i
    | .settle r =>
        if s.pending = 0 then s
        else
          match r with
          | some data =>
              { s with pending := s.pending - 1, suggestions := data, isLoading := false }
          | none =>
              { s with pending := s.pending - 1, isLoading := false,
                       fetchLogs := s.fetchLogs + 1 }

/-- Folding a whole event sequence from a state. -/
def run (s : WidgetState) (evs : List WEvent) : WidgetState := evs.foldl step s

/-- Iterated presses of one key. -/
def pressN (s : WidgetState) (k : Key) : Nat → WidgetState
  | 0 => s
  | n + 1 => step (pressN s k n) (.keyDown k)

/-- Events that are not an editing keystroke of the input. -/
def notInputEvent (e : WEvent) : Bool :=
  match e with
  | .input _ => false
  | _ => true

/-- Event sequences with no editing keystroke. -/
def nonInput (evs : List WEvent) : Bool := evs.all notInputEvent

end Autocomplete

namespace Demo

open Types Autocomplete

/-! ## Concrete demonstration data

Countries mirror the scenario data of the spec and the service tests;
widget states and event sequences are used to evaluate the embedded code at
concrete inputs. -/

/-- United States record of the scenario dataset. -/
def usCountry : Country :=
  ⟨"🇺🇸", "United States", some [("USD", ⟨"United States Dollar", "$"⟩)]⟩

/-- United Kingdom record of the scenario dataset. -/
def gbCountry : Country :=
  ⟨"🇬🇧", "United Kingdom", some [("GBP", ⟨"British Pound", "£"⟩)]⟩

/-- Country record with no currency mapping. -/
def aqCountry : Country := ⟨"🇦🇶", "Antarctica", none⟩

/-- Fiji record, whose currency label contains "Fi" but not the ligature
"ﬁ"; used to refute the all-queries case-insensitivity claim. -/
def fjCountry : Country := ⟨"🇫🇯", "Fiji", some [("FJD", ⟨"Fijian dollar", "$"⟩)]⟩

/-- Scenario dataset. -/
def demoCountries : List Country := [usCountry, gbCountry, aqCountry]

/-- Suggestion used in the widget runs. -/
def demoSug : Suggestion := ⟨"1", "Suggestion 1"⟩

/-- Event sequence: type a character, let the debounce settle (which starts
a fetch), let the fetch resolve with one suggestion, highlight it with
ArrowDown, commit it with Enter. -/
def commitEvents : List WEvent :=
  [.input "d", .debounce, .settle (some [demoSug]), .keyDown .arrowDown, .keyDown .enter]

/-- The commit run followed by a second Enter press. -/
def doubleEnterEvents : List WEvent := commitEvents ++ [.keyDown .enter]

/-- Event sequence: obtain a suggestion list, then clear the input and let
the debounce settle on the empty query. -/
def clearEvents : List WEvent :=
  [.input "d", .debounce, .settle (some [demoSug]), .input "", .debounce]

/-- Widget state showing a fetched two-item suggestion list. -/
def navState : WidgetState :=
  { initState with query := "test", debounced := "test",
                   suggestions := [demoSug, ⟨"2", "Suggestion 2"⟩] }

/-- Widget state immediately after a commit, with a stale debounced value. -/
def committedState : WidgetState :=
  { initState with query := "Suggestion 1", debounced := "test", isSelectionMade := true }

end Demo

namespace Autocomplete

/-! ## Helper lemmas: characters and strings -/

/-- Auxiliary fact about `Char.ofNat` on valid code points. -/
theorem charToNatOfNat (n : Nat) (h : n.isValidChar) : (Char.ofNat n).toNat = n := by
  simp [Char.ofNat, h, Char.toNat, Char.ofNatAux, UInt32.toNat, BitVec.toNat_ofNatLt]

theorem lowChar_lowChar (c : Char) : lowChar (lowChar c) = lowChar c := by
  unfold lowChar
  by_cases h : (65 ≤ c.toNat ∧ c.toNat ≤ 90) ∨ (192 ≤ c.toNat ∧ c.toNat ≤ 222 ∧ c.toNat ≠ 215)
  · have h2 : (Char.ofNat (c.toNat + 32)).toNat = c.toNat + 32 :=
      charToNatOfNat _ (Or.inl (by omega))
    have hno : ¬ ((65 ≤ (Char.ofNat (c.toNat + 32)).toNat ∧ (Char.ofNat (c.toNat + 32)).toNat ≤ 90)
        ∨ (192 ≤ (Char.ofNat (c.toNat + 32)).toNat ∧ (Char.ofNat (c.toNat + 32)).toNat ≤ 222
            ∧ (Char.ofNat (c.toNat + 32)).toNat ≠ 215)) := by
      rw [h2]
      omega
    rw [if_pos h, if_neg hno]
  · simp only [if_neg h]

theorem upChar_map_lowChar_ascii (c : Char) (h : c.toNat ≤ 127) :
    (upChar c).map lowChar = [lowChar c] := by
  have hsz : c ≠ 'ß' := fun e => by rw [e] at h; exact absurd h (by decide)
  have hfi : c ≠ 'ﬁ' := fun e => by rw [e] at h; exact absurd h (by decide)
  have hfl : c ≠ 'ﬂ' := fun e => by rw [e] at h; exact absurd h (by decide)
  unfold upChar
  rw [if_neg hsz, if_neg hfi, if_neg hfl]
  by_cases hlo : (97 ≤ c.toNat ∧ c.toNat ≤ 122) ∨ (224 ≤ c.toNat ∧ c.toNat ≤ 254 ∧ c.toNat ≠ 247)
  · have hrange : 97 ≤ c.toNat ∧ c.toNat ≤ 122 := by
      rcases hlo with h1 | h1
      · exact h1
      · omega
    rw [if_pos hlo]
    simp only [List.map_cons, List.map_nil]
    congr 1
    have h2 : (Char.ofNat (c.toNat - 32)).toNat = c.toNat - 32 :=
      charToNatOfNat _ (Or.inl (by omega))
    unfold lowChar
    have hyes : (65 ≤ (Char.ofNat (c.toNat - 32)).toNat ∧ (Char.ofNat (c.toNat - 32)).toNat ≤ 90)
        ∨ (192 ≤ (Char.ofNat (c.toNat - 32)).toNat ∧ (Char.ofNat (c.toNat - 32)).toNat ≤ 222
            ∧ (Char.ofNat (c.toNat - 32)).toNat ≠ 215) := by
      rw [h2]
      left
      omega
    have hno : ¬ ((65 ≤ c.toNat ∧ c.toNat ≤ 90)
        ∨ (192 ≤ c.toNat ∧ c.toNat ≤ 222 ∧ c.toNat ≠ 215)) := by omega
    rw [if_pos hyes, if_neg hno, h2]
    rw [(by omega : c.toNat - 32 + 32 = c.toNat), Char.ofNat_toNat]
  · rw [if_neg hlo]
    simp

theorem map_lowChar_flatMap_upChar (l : List Char) (h : ∀ c ∈ l, c.toNat ≤ 127) :
    (l.flatMap upChar).map lowChar = l.map lowChar := by
  induction l with
  | nil => rfl
  | cons c cs ih =>
      rw [List.flatMap_cons, List.map_append,
        upChar_map_lowChar_ascii c (h c (List.mem_cons_self c cs)),
        ih (fun x hx => h x (List.mem_cons_of_mem c hx))]
      rfl

theorem strLower_strUpper_ascii (q : String) (h : asciiStr q = true) :
    strLower (strUpper q) = strLower q := by
  unfold strLower strUpper
  congr 1
  exact map_lowChar_flatMap_upChar q.data fun c hc => by
    have hx := List.all_eq_true.mp h c hc
    unfold asciiChar at hx
    exact of_decide_eq_true hx

theorem strLower_strLower (q : String) : strLower (strLower q) = strLower q := by
  unfold strLower
  have hf : lowChar ∘ lowChar = lowChar := funext lowChar_lowChar
  rw [List.map_map, hf]

theorem subList_nil (h : List Char) : subList [] h = true := by
  cases h <;> simp [subList, leadsEq, List.isEmpty]

theorem strLower_empty : strLower "" = "" := rfl

end Autocomplete

namespace MockedApi

open Autocomplete Types

/-! ## Helper lemmas: the mocked suggestion source -/

theorem nameMatches_upper_ascii (label q : String) (h : asciiStr q = true) :
    nameMatches label (strUpper q) = nameMatches label q := by
  unfold nameMatches
  rw [strLower_strUpper_ascii q h]

theorem nameMatches_lower (label q : String) :
    nameMatches label (strLower q) = nameMatches label q := by
  unfold nameMatches
  rw [strLower_strLower]

theorem nameMatches_empty (label : String) : nameMatches label "" = true := by
  unfold nameMatches strIncludes
  rw [strLower_empty]
  exact subList_nil _

theorem fetchSuggestions_empty_query (cs : List Country) :
    (fetchSuggestions (.success cs) "").suggestions = buildSuggestions cs := by
  unfold fetchSuggestions
  simp [nameMatches_empty]

end MockedApi

/-! ## Claims about the mocked suggestion source -/

/-- C5: for every query string, `fetchSuggestions` never rejects from the
caller's point of view: any network/parse failure resolves to the empty
suggestion list with the failure logged exactly once, and a successful
fetch logs nothing. -/
theorem c5_failure_swallowed :
    ∀ q : String,
      MockedApi.fetchSuggestions .failure q = ⟨[], 1⟩ ∧
      ∀ cs, (MockedApi.fetchSuggestions (.success cs) q).logged = 0 := by
  intro q
  exact ⟨rfl, fun cs => rfl⟩

/-- C6 counterexample: the claim quantifies over every query string, but
JavaScript uppercasing is full Unicode, so for the query `"ﬁ"` (the Latin
small ligature fi, whose uppercase is `"FI"`) the filter result differs from
the result for the uppercased query on a dataset holding the Fijian dollar:
`"FI"` matches the label case-insensitively while `"ﬁ"` does not occur in
it. -/
theorem c6_unicode_upper_changes_filter :
    (MockedApi.fetchSuggestions (.success [Demo.fjCountry])
        (Autocomplete.strUpper "ﬁ")).suggestions
      ≠ (MockedApi.fetchSuggestions (.success [Demo.fjCountry]) "ﬁ").suggestions := by
  decide

/-- C6 amended: over queries of ASCII characters the filtering is
case-insensitive — the result for `q` equals the result for `q` uppercased
and for `q` lowercased; for every query the result keeps exactly the
suggestions whose lowercased label contains the lowercased query (the
program's comparison), and the empty query keeps every suggestion.  Outside
ASCII the uppercase equality fails on the program because JavaScript applies
full Unicode case conversion (see the counterexample). -/
theorem c6_amended_ascii_case_insensitive :
    ∀ (cs : List Types.Country) (q : String),
      (Autocomplete.asciiStr q = true →
        MockedApi.fetchSuggestions (.success cs) (Autocomplete.strUpper q)
            = MockedApi.fetchSuggestions (.success cs) q ∧
        MockedApi.fetchSuggestions (.success cs) (Autocomplete.strLower q)
            = MockedApi.fetchSuggestions (.success cs) q) ∧
      (∀ s, s ∈ (MockedApi.fetchSuggestions (.success cs) q).suggestions ↔
          s ∈ MockedApi.buildSuggestions cs ∧ MockedApi.nameMatches s.name q = true) ∧
      (MockedApi.fetchSuggestions (.success cs) "").suggestions
          = MockedApi.buildSuggestions cs := by
  intro cs q
  refine ⟨fun h => ⟨?_, ?_⟩, ?_, MockedApi.fetchSuggestions_empty_query cs⟩
  · have hpred : (fun s : Types.Suggestion => MockedApi.nameMatches s.name (Autocomplete.strUpper q))
        = (fun s : Types.Suggestion => MockedApi.nameMatches s.name q) :=
      funext fun s => MockedApi.nameMatches_upper_ascii s.name q h
    unfold MockedApi.fetchSuggestions
    rw [hpred]
  · have hpred : (fun s : Types.Suggestion => MockedApi.nameMatches s.name (Autocomplete.strLower q))
        = (fun s : Types.Suggestion => MockedApi.nameMatches s.name q) :=
      funext fun s => MockedApi.nameMatches_lower s.name q
    unfold MockedApi.fetchSuggestions
    rw [hpred]
  · intro s
    unfold MockedApi.fetchSuggestions
    simp [List.mem_filter]

/-- Witness for the amended C6 at the ASCII query of the spec scenario. -/
theorem c6_amended_ascii_case_insensitive_witness :
    Autocomplete.asciiStr "Pound" = true ∧
    MockedApi.fetchSuggestions (.success Demo.demoCountries) (Autocomplete.strUpper "Pound")
        = MockedApi.fetchSuggestions (.success Demo.demoCountries) "Pound" ∧
    MockedApi.fetchSuggestions (.success Demo.demoCountries) (Autocomplete.strLower "Pound")
        = MockedApi.fetchSuggestions (.success Demo.demoCountries) "Pound" ∧
    (MockedApi.fetchSuggestions (.success Demo.demoCountries) "").suggestions
        = MockedApi.buildSuggestions Demo.demoCountries :=
  ⟨rfl,
   ((c6_amended_ascii_case_insensitive Demo.demoCountries "Pound").1 rfl).1,
   ((c6_amended_ascii_case_insensitive Demo.demoCountries "Pound").1 rfl).2,
   (c6_amended_ascii_case_insensitive Demo.demoCountries "Pound").2.2⟩

/-- C7: with the empty query, `fetchSuggestions` returns, in record order,
exactly one suggestion per (country, currency) pair: a country with no
currency mapping contributes zero suggestions, a country with N currencies
contributes exactly N, and each suggestion carries the currency code as id
and the label `<flag> <currency name> (<currency symbol>)`. -/
theorem c7_empty_query_expansion :
    ∀ cs : List Types.Country,
      (MockedApi.fetchSuggestions (.success cs) "").suggestions
          = cs.flatMap MockedApi.countrySuggestions ∧
      (∀ c : Types.Country, c.currencies = none → MockedApi.countrySuggestions c = []) ∧
      (∀ (c : Types.Country) entries, c.currencies = some entries →
          (MockedApi.countrySuggestions c).length = entries.length) ∧
      (∀ (c : Types.Country) (s : Types.Suggestion), s ∈ MockedApi.countrySuggestions c →
          ∃ e ∈ c.currencies.getD [], s.id = e.1 ∧
            s.name = c.flag ++ " " ++ e.2.name ++ " (" ++ e.2.symbol ++ ")") := by
  intro cs
  refine ⟨MockedApi.fetchSuggestions_empty_query cs, ?_, ?_, ?_⟩
  · intro c h
    unfold MockedApi.countrySuggestions
    rw [h]
  · intro c entries h
    unfold MockedApi.countrySuggestions
    rw [h]
    exact List.length_map _ _
  · intro c s hs
    unfold MockedApi.countrySuggestions at hs
    cases hcur : c.currencies with
    | none => rw [hcur] at hs; simp at hs
    | some entries =>
        rw [hcur] at hs
        simp only [List.mem_map] at hs
        obtain ⟨e, he, rfl⟩ := hs
        exact ⟨e, by simpa [hcur] using he, rfl, rfl⟩

/-- Witness for C7 on the scenario dataset. -/
theorem c7_empty_query_expansion_witness :
    (MockedApi.fetchSuggestions (.success Demo.demoCountries) "").suggestions
        = Demo.demoCountries.flatMap MockedApi.countrySuggestions ∧
    MockedApi.countrySuggestions Demo.aqCountry = [] ∧
    (MockedApi.countrySuggestions Demo.usCountry).length = 1 ∧
    ∃ e ∈ Demo.usCountry.currencies.getD [],
      (Types.Suggestion.mk "USD" "🇺🇸 United States Dollar ($)").id = e.1 ∧
      (Types.Suggestion.mk "USD" "🇺🇸 United States Dollar ($)").name
        = Demo.usCountry.flag ++ " " ++ e.2.name ++ " (" ++ e.2.symbol ++ ")" :=
  ⟨(c7_empty_query_expansion Demo.demoCountries).1,
   (c7_empty_query_expansion Demo.demoCountries).2.1 Demo.aqCountry rfl,
   (c7_empty_query_expansion Demo.demoCountries).2.2.1 Demo.usCountry _ rfl,
   (c7_empty_query_expansion Demo.demoCountries).2.2.2 Demo.usCountry _ (by decide)⟩

namespace Autocomplete

/-! ## Helper lemmas: the widget state machine -/

theorem maybeEffect_suggestions_empty (old new : WidgetState) (h : new.suggestions = []) :
    (maybeEffect old new).suggestions = [] := by
  unfold maybeEffect debouncedQueryEffect fetchSuggestionsHandler
  split_ifs <;> simp [h]

theorem maybeEffect_selection (old new : WidgetState) (h : new.isSelectionMade = true) :
    maybeEffect old new = new := by
  unfold maybeEffect debouncedQueryEffect
  split_ifs with h1 h2
  · rfl
  · rw [h] at h2
    simp at h2
  · rfl

theorem maybeEffect_debounced_empty (old new : WidgetState) (h : new.debounced = "") :
    maybeEffect old new = new := by
  unfold maybeEffect debouncedQueryEffect
  split_ifs with h1 h2
  · rfl
  · rw [h] at h2
    simp at h2
  · rfl

end Autocomplete

/-! ## Claims about the widget state machine -/

/-- C1: the claim that `selectedIndex` is `-1` whenever `suggestions` is
empty fails on the code: committing via Enter clears the suggestions but
leaves `selectedIndex` at its non-negative value.  This theorem evaluates
the embedded widget on the concrete commit run: after typing, fetching one
suggestion, pressing ArrowDown and pressing Enter, the suggestion list is
empty while `selectedIndex` is still `0`. -/
theorem c1_commit_keeps_nonneg_index :
    (Autocomplete.run Autocomplete.initState Demo.commitEvents).suggestions = [] ∧
    (Autocomplete.run Autocomplete.initState Demo.commitEvents).selectedIndex = 0 := by
  constructor <;> rfl

/-- C2: the claim that the Enter branch never reads out of bounds fails on
the code: after the commit run of C1, a second Enter press satisfies
`selectedIndex >= 0` with an empty list, so the handler evaluates
`suggestions[0].name` on `undefined` and throws. -/
theorem c2_double_enter_crashes :
    (Autocomplete.run Autocomplete.initState Demo.doubleEnterEvents).crashed = true := by
  rfl

/-- C4 counterexample: clearing the input does not clear the suggestions
state.  After fetching one suggestion and then emptying the input (with the
debounce settling on the empty query), the query is empty while the
suggestions state still holds the stale entry. -/
theorem c4_empty_query_state_not_cleared :
    (Autocomplete.run Autocomplete.initState Demo.clearEvents).query = "" ∧
    (Autocomplete.run Autocomplete.initState Demo.clearEvents).suggestions = [Demo.demoSug] := by
  constructor <;> rfl

/-- C4 amended: the suggestions state is cleared immediately on a commit
(Enter with a valid highlight, or a click on a rendered item), and a
resolving fetch replaces the list wholesale (never appends) at resolution
time; when the query becomes empty the list is no longer rendered, but the
suggestions state itself is not cleared (see the counterexample). -/
theorem c4_amended_commit_and_replace :
    (∀ (s : Autocomplete.WidgetState) (sug : Types.Suggestion),
        s.crashed = false → s.selectedIndex ≥ 0 →
        s.suggestions.get? s.selectedIndex.toNat = some sug →
        (Autocomplete.step s (.keyDown .enter)).suggestions = []) ∧
    (∀ (s : Autocomplete.WidgetState) (i : Nat) (sug : Types.Suggestion),
        s.crashed = false → (Autocomplete.renderedList s).get? i = some sug →
        (Autocomplete.step s (.click i)).suggestions = []) ∧
    (∀ (s : Autocomplete.WidgetState) (data : List Types.Suggestion),
        s.crashed = false → s.pending ≠ 0 →
        (Autocomplete.step s (.settle (some data))).suggestions = data) ∧
    (∀ s : Autocomplete.WidgetState, s.query = "" → Autocomplete.renderedList s = []) := by
  refine ⟨?_, ?_, ?_, ?_⟩
  · intro s sug hc hi hget
    simp only [Autocomplete.step, hc, if_neg, Bool.false_eq_true, not_false_iff,
      if_false, Autocomplete.handleKeyDown, hi, if_pos, hget]
    exact Autocomplete.maybeEffect_suggestions_empty _ _ rfl
  · intro s i sug hc hget
    simp only [Autocomplete.step, hc, Bool.false_eq_true, not_false_iff, if_false,
      Autocomplete.handleSuggestionClick, hget]
    exact Autocomplete.maybeEffect_suggestions_empty _ _ rfl
  · intro s data hc hp
    simp [Autocomplete.step, hc, hp]
  · intro s hq
    unfold Autocomplete.renderedList
    rw [if_neg]
    simp [hq]

/-- Witness for the amended C4 at concrete states. -/
theorem c4_amended_commit_and_replace_witness :
    (Autocomplete.step { Demo.navState with selectedIndex := 0 }
        (.keyDown .enter)).suggestions = [] ∧
    (Autocomplete.step Demo.navState (.click 0)).suggestions = [] ∧
    (Autocomplete.step { Demo.navState with pending := 1 }
        (.settle (some [Demo.demoSug]))).suggestions = [Demo.demoSug] ∧
    Autocomplete.renderedList Autocomplete.initState = [] :=
  ⟨c4_amended_commit_and_replace.1 _ Demo.demoSug rfl (by decide) rfl,
   c4_amended_commit_and_replace.2.1 _ 0 Demo.demoSug rfl (by decide),
   c4_amended_commit_and_replace.2.2.1 _ _ rfl (by decide),
   c4_amended_commit_and_replace.2.2.2 _ rfl⟩

namespace Autocomplete

theorem step_arrowDown_invariant (s : WidgetState) (hc : s.crashed = false) :
    (step s (.keyDown .arrowDown)).suggestions = s.suggestions ∧
    (step s (.keyDown .arrowDown)).crashed = false := by
  simp [step, hc, handleKeyDown]

theorem pressN_down_formula (s : WidgetState) (hc : s.crashed = false)
    (h : s.selectedIndex = -1) :
    ∀ n, (pressN s .arrowDown n).selectedIndex
            = ((min n s.suggestions.length : Nat) : Int) - 1 ∧
         (pressN s .arrowDown n).suggestions = s.suggestions ∧
         (pressN s .arrowDown n).crashed = false := by
  intro n
  induction n with
  | zero =>
      refine ⟨?_, rfl, hc⟩
      simpa [pressN] using h
  | succ n ih =>
      obtain ⟨h1, h2, h3⟩ := ih
      refine ⟨?_, ?_, ?_⟩
      · show (step (pressN s .arrowDown n) (.keyDown .arrowDown)).selectedIndex = _
        simp only [step, h3, Bool.false_eq_true, not_false_iff, if_false, handleKeyDown, h1, h2]
        split_ifs with hlt <;> omega
      · rw [show pressN s .arrowDown (n + 1)
              = step (pressN s .arrowDown n) (.keyDown .arrowDown) from rfl,
            (step_arrowDown_invariant _ h3).1, h2]
      · rw [show pressN s .arrowDown (n + 1)
              = step (pressN s .arrowDown n) (.keyDown .arrowDown) from rfl,
            (step_arrowDown_invariant _ h3).2]

theorem pressN_up_formula (s : WidgetState) (hc : s.crashed = false)
    (h : s.selectedIndex = -1) :
    ∀ k, (pressN s .arrowUp k).selectedIndex = -1 ∧ (pressN s .arrowUp k).crashed = false := by
  intro k
  induction k with
  | zero => exact ⟨h, hc⟩
  | succ k ih =>
      obtain ⟨h1, h2⟩ := ih
      constructor
      · show (step (pressN s .arrowUp k) (.keyDown .arrowUp)).selectedIndex = -1
        simp [step, h2, handleKeyDown, h1]
      · show (step (pressN s .arrowUp k) (.keyDown .arrowUp)).crashed = false
        simp [step, h2, handleKeyDown]

end Autocomplete

/-- C9: from `selectedIndex = -1`, pressing ArrowDown `len(suggestions)`
times lands on `len(suggestions) - 1`, any further ArrowDown presses leave
it there (clamped, no wraparound), and any number of ArrowUp presses from
`-1` stays at `-1` (no underflow). -/
theorem c9_arrow_key_clamping (s : Autocomplete.WidgetState)
    (hc : s.crashed = false) (h : s.selectedIndex = -1) :
    (Autocomplete.pressN s .arrowDown s.suggestions.length).selectedIndex
        = (s.suggestions.length : Int) - 1 ∧
    (∀ m, (Autocomplete.pressN s .arrowDown (s.suggestions.length + m)).selectedIndex
        = (s.suggestions.length : Int) - 1) ∧
    (∀ k, (Autocomplete.pressN s .arrowUp k).selectedIndex = -1) := by
  refine ⟨?_, ?_, ?_⟩
  · rw [(Autocomplete.pressN_down_formula s hc h s.suggestions.length).1]
    simp
  · intro m
    rw [(Autocomplete.pressN_down_formula s hc h (s.suggestions.length + m)).1]
    simp
  · intro k
    exact (Autocomplete.pressN_up_formula s hc h k).1

/-- Witness for C9 on a two-suggestion state. -/
theorem c9_arrow_key_clamping_witness :
    (Autocomplete.pressN Demo.navState .arrowDown
        Demo.navState.suggestions.length).selectedIndex
      = (Demo.navState.suggestions.length : Int) - 1 ∧
    (Autocomplete.pressN Demo.navState .arrowDown
        (Demo.navState.suggestions.length + 3)).selectedIndex
      = (Demo.navState.suggestions.length : Int) - 1 ∧
    (Autocomplete.pressN Demo.navState .arrowUp 5).selectedIndex = -1 :=
  ⟨(c9_arrow_key_clamping Demo.navState rfl rfl).1,
   (c9_arrow_key_clamping Demo.navState rfl rfl).2.1 3,
   (c9_arrow_key_clamping Demo.navState rfl rfl).2.2 5⟩

namespace Autocomplete

theorem maybeEffect_of_selection_issued (old new : WidgetState)
    (h : new.isSelectionMade = true) :
    (maybeEffect old new).isSelectionMade = true ∧ (maybeEffect old new).issued = new.issued := by
  rw [maybeEffect_selection old new h]
  exact ⟨h, rfl⟩

theorem step_nonInput_selection (s : WidgetState) (e : WEvent)
    (he : notInputEvent e = true) (h : s.isSelectionMade = true) :
    (step s e).isSelectionMade = true ∧ (step s e).issued = s.issued := by
  by_cases hc : s.crashed = true
  · simp [step, hc, h]
  · simp only [Bool.not_eq_true] at hc
    cases e with
    | input q => simp [notInputEvent] at he
    | debounce =>
        simp only [step, hc, Bool.false_eq_true, not_false_iff, if_false]
        exact maybeEffect_of_selection_issued _ _ h
    | keyDown k =>
        simp only [step, hc, Bool.false_eq_true, not_false_iff, if_false]
        cases k with
        | arrowDown => exact ⟨h, rfl⟩
        | arrowUp => exact ⟨h, rfl⟩
        | other => exact ⟨h, rfl⟩
        | enter =>
            simp only [handleKeyDown]
            split_ifs with hi
            · cases hget : s.suggestions.get? s.selectedIndex.toNat with
              | none => simp [hget, h]
              | some sug =>
                  simp only [hget]
                  exact maybeEffect_of_selection_issued _ _ rfl
            · exact ⟨h, rfl⟩
    | click i =>
        simp only [step, hc, Bool.false_eq_true, not_false_iff, if_false]
        simp only [handleSuggestionClick]
        cases hget : (renderedList s).get? i with
        | none => simp [hget, h]
        | some sug =>
            simp only [hget]
            exact maybeEffect_of_selection_issued _ _ rfl
    | settle r =>
        simp only [step, hc, Bool.false_eq_true, not_false_iff, if_false]
        split_ifs with hp
        · exact ⟨h, rfl⟩
        · cases r <;> exact ⟨h, rfl⟩

end Autocomplete

/-- C10: once a selection has been committed (`isSelectionMade` is true), no
fetch is ever issued by any sequence of events that contains no editing
keystroke — settling debounce timers, fetch settlements, key presses and
clicks included — until the next keystroke clears the flag. -/
theorem c10_fetch_suppressed_after_commit (s : Autocomplete.WidgetState)
    (h : s.isSelectionMade = true) (evs : List Autocomplete.WEvent)
    (he : Autocomplete.nonInput evs = true) :
    (Autocomplete.run s evs).issued = s.issued := by
  induction evs generalizing s with
  | nil => rfl
  | cons e rest ih =>
      rw [show Autocomplete.nonInput (e :: rest)
            = (Autocomplete.notInputEvent e && Autocomplete.nonInput rest) from by
          simp [Autocomplete.nonInput]] at he
      rw [Bool.and_eq_true] at he
      obtain ⟨hsel, hiss⟩ := Autocomplete.step_nonInput_selection s e he.1 h
      show (Autocomplete.run (Autocomplete.step s e) rest).issued = s.issued
      rw [ih _ hsel he.2, hiss]

/-- Witness for C10: from a committed state, a debounce settling on the
frozen query followed by a stale fetch rejection issues no fetch. -/
theorem c10_fetch_suppressed_after_commit_witness :
    (Autocomplete.run Demo.committedState [.debounce, .settle none]).issued
        = Demo.committedState.issued :=
  c10_fetch_suppressed_after_commit Demo.committedState rfl [.debounce, .settle none] rfl

namespace Autocomplete

/-! ## Helper lemmas: highlightMatch -/

theorem ciLeads_length (q : List Char) :
    ∀ t, ciLeads q t = true → q.length ≤ t.length := by
  induction q with
  | nil => intro t _; simp
  | cons p ps ih =>
      intro t h
      cases t with
      | nil => simp [ciLeads] at h
      | cons c cs =>
          simp only [ciLeads, Bool.and_eq_true] at h
          simpa using ih cs h.2

theorem ciLeads_take_low (q : List Char) :
    ∀ t, ciLeads q t = true → (t.take q.length).map lowChar = q.map lowChar := by
  induction q with
  | nil => intro t _; simp
  | cons p ps ih =>
      intro t h
      cases t with
      | nil => simp [ciLeads] at h
      | cons c cs =>
          simp only [ciLeads, Bool.and_eq_true, beq_iff_eq] at h
          simp [List.take, h.1, ih cs h.2]

theorem ciLeads_append (q : List Char) :
    ∀ p u, ciLeads q p = true → ciLeads q (p ++ u) = true := by
  induction q with
  | nil => intro p u _; rfl
  | cons a as ih =>
      intro p u h
      cases p with
      | nil => simp [ciLeads] at h
      | cons b bs =>
          simp only [ciLeads, Bool.and_eq_true] at h
          simp only [List.cons_append, ciLeads, Bool.and_eq_true]
          exact ⟨h.1, ih bs u h.2⟩

theorem findOcc_decomp (q : List Char) :
    ∀ t p m r, findOcc q t = some (p, m, r) → t = p ++ m ++ r := by
  intro t
  induction t with
  | nil => intro p m r h; simp [findOcc] at h
  | cons c cs ih =>
      intro p m r h
      simp only [findOcc] at h
      split_ifs at h with hif
      · simp only [Option.some.injEq, Prod.mk.injEq] at h
        obtain ⟨h1, h2, h3⟩ := h
        subst h1
        subst h2
        subst h3
        simp
      · cases hrec : findOcc q cs with
        | none => simp [hrec] at h
        | some trip =>
            obtain ⟨p2, m2, r2⟩ := trip
            simp only [hrec, Option.some.injEq, Prod.mk.injEq] at h
            obtain ⟨h1, h2, h3⟩ := h
            subst h1
            subst h2
            subst h3
            simpa using ih p2 m2 r2 hrec

theorem findOcc_match (q : List Char) :
    ∀ t p m r, findOcc q t = some (p, m, r) →
      m.map lowChar = q.map lowChar ∧ m.length = q.length := by
  intro t
  induction t with
  | nil => intro p m r h; simp [findOcc] at h
  | cons c cs ih =>
      intro p m r h
      simp only [findOcc] at h
      split_ifs at h with hif
      · simp only [Option.some.injEq, Prod.mk.injEq] at h
        obtain ⟨h1, h2, h3⟩ := h
        subst h2
        constructor
        · exact ciLeads_take_low q (c :: cs) hif
        · have hlen := ciLeads_length q (c :: cs) hif
          simp only [List.length_cons] at hlen
          simp [List.length_take]
          omega
      · cases hrec : findOcc q cs with
        | none => simp [hrec] at h
        | some trip =>
            obtain ⟨p2, m2, r2⟩ := trip
            simp only [hrec, Option.some.injEq, Prod.mk.injEq] at h
            obtain ⟨h1, h2, h3⟩ := h
            subst h2
            exact ih p2 m2 r2 hrec

theorem findOcc_rest_length (q : List Char) (hq : q ≠ []) :
    ∀ t p m r, findOcc q t = some (p, m, r) → r.length < t.length := by
  intro t p m r h
  have hd := findOcc_decomp q t p m r h
  have hm := (findOcc_match q t p m r h).2
  have hql : 0 < q.length := List.length_pos.mpr hq
  have : t.length = p.length + m.length + r.length := by
    rw [hd]
    simp [List.length_append]
    omega
  omega

theorem findOcc_none_clean (q : List Char) (hq : q ≠ []) :
    ∀ t, findOcc q t = none → hasOcc q t = false := by
  intro t
  induction t with
  | nil =>
      intro _
      obtain ⟨x, xs, rfl⟩ : ∃ x xs, q = x :: xs := by
        cases q with
        | nil => exact absurd rfl hq
        | cons x xs => exact ⟨x, xs, rfl⟩
      rfl
  | cons c cs ih =>
      intro h
      simp only [findOcc] at h
      split_ifs at h with hif
      cases hrec : findOcc q cs with
      | none =>
          simp only [hasOcc, Bool.or_eq_false_iff]
          exact ⟨by simpa using hif, ih hrec⟩
      | some trip =>
          obtain ⟨p2, m2, r2⟩ := trip
          simp [hrec] at h

theorem findOcc_plainPart_clean (q : List Char) (hq : q ≠ []) :
    ∀ t p m r, findOcc q t = some (p, m, r) → hasOcc q p = false := by
  intro t
  induction t with
  | nil => intro p m r h; simp [findOcc] at h
  | cons c cs ih =>
      intro p m r h
      simp only [findOcc] at h
      split_ifs at h with hif
      · simp only [Option.some.injEq, Prod.mk.injEq] at h
        obtain ⟨h1, h2, h3⟩ := h
        subst h1
        obtain ⟨x, xs, rfl⟩ : ∃ x xs, q = x :: xs := by
          cases q with
          | nil => exact absurd rfl hq
          | cons x xs => exact ⟨x, xs, rfl⟩
        rfl
      · cases hrec : findOcc q cs with
        | none => simp [hrec] at h
        | some trip =>
            obtain ⟨p2, m2, r2⟩ := trip
            simp only [hrec, Option.some.injEq, Prod.mk.injEq] at h
            obtain ⟨h1, h2, h3⟩ := h
            subst h1
            have hdec := findOcc_decomp q cs p2 m2 r2 hrec
            simp only [hasOcc, Bool.or_eq_false_iff]
            refine ⟨?_, ih p2 m2 r2 hrec⟩
            by_contra hcontra
            simp only [Bool.not_eq_false] at hcontra
            have : ciLeads q (c :: cs) = true := by
              have := ciLeads_append q (c :: p2) (m2 ++ r2) hcontra
              rw [hdec]
              simpa using this
            exact hif this

theorem hlSplitF_join (q : List Char) (hq : q ≠ []) :
    ∀ fuel t, t.length < fuel → joinSlices (hlSplitF fuel q t) = t := by
  intro fuel
  induction fuel with
  | zero => intro t ht; omega
  | succ fuel ih =>
      intro t ht
      cases hfind : findOcc q t with
      | none => simp [hlSplitF, hfind, joinSlices]
      | some trip =>
          obtain ⟨p, m, r⟩ := trip
          have hr := findOcc_rest_length q hq t p m r hfind
          have hd := findOcc_decomp q t p m r hfind
          simp only [hlSplitF, hfind, joinSlices, List.foldr]
          have : joinSlices (hlSplitF fuel q r) = r := ih r (by omega)
          rw [joinSlices] at this
          rw [this, hd]
          simp

theorem hlSplitF_true_slices (q : List Char) (hq : q ≠ []) :
    ∀ fuel t, t.length < fuel → ∀ x, (x, true) ∈ hlSplitF fuel q t →
      x.map lowChar = q.map lowChar := by
  intro fuel
  induction fuel with
  | zero => intro t ht; omega
  | succ fuel ih =>
      intro t ht x hx
      cases hfind : findOcc q t with
      | none =>
          rw [hlSplitF, hfind] at hx
          simp at hx
      | some trip =>
          obtain ⟨p, m, r⟩ := trip
          have hr := findOcc_rest_length q hq t p m r hfind
          rw [hlSplitF, hfind] at hx
          simp only [List.mem_cons, Prod.mk.injEq] at hx
          rcases hx with ⟨h1, h2⟩ | ⟨h1, h2⟩ | hx
          · exact absurd h2.symm (by simp)
          · exact h1 ▸ (findOcc_match q t p m r hfind).1
          · exact ih r (by omega) x hx

theorem hlSplitF_false_slices (q : List Char) (hq : q ≠ []) :
    ∀ fuel t, t.length < fuel → ∀ x, (x, false) ∈ hlSplitF fuel q t →
      hasOcc q x = false := by
  intro fuel
  induction fuel with
  | zero => intro t ht; omega
  | succ fuel ih =>
      intro t ht x hx
      cases hfind : findOcc q t with
      | none =>
          rw [hlSplitF, hfind] at hx
          simp only [List.mem_singleton, Prod.mk.injEq] at hx
          exact hx.1 ▸ findOcc_none_clean q hq t hfind
      | some trip =>
          obtain ⟨p, m, r⟩ := trip
          have hr := findOcc_rest_length q hq t p m r hfind
          rw [hlSplitF, hfind] at hx
          simp only [List.mem_cons, Prod.mk.injEq] at hx
          rcases hx with ⟨h1, h2⟩ | ⟨h1, h2⟩ | hx
          · exact h1 ▸ findOcc_plainPart_clean q hq t p m r hfind
          · exact absurd h2.symm (by simp)
          · exact ih r (by omega) x hx

end Autocomplete

namespace Autocomplete

theorem regexScan_cons_lit (c : Char) (cs : List Char) (d : Nat)
    (h1 : c ≠ '\\') (h2 : c ≠ '[') (h3 : c ≠ '(') (h4 : c ≠ ')') :
    regexScan (c :: cs) d false = regexScan cs d false := by
  rw [regexScan.eq_def]
  simp [h1, h2, h3, h4]

theorem regexScan_group_open (xs : List Char) (d : Nat) :
    regexScan ('(' :: xs) d false = regexScan xs (d + 1) false := by
  rw [regexScan.eq_def]
  simp

theorem regexScan_lit_append (xs : List Char) (h : ∀ c ∈ xs, jsMetaChar c = false) :
    regexScan (xs ++ [')']) 1 false = true := by
  induction xs with
  | nil => rfl
  | cons c cs ih =>
      have hc := h c (List.mem_cons_self c cs)
      have hcs : ∀ x ∈ cs, jsMetaChar x = false := fun x hx => h x (List.mem_cons_of_mem c hx)
      simp [jsMetaChar] at hc
      rw [List.cons_append,
        regexScan_cons_lit c (cs ++ [')']) 1 (by tauto) (by tauto) (by tauto) (by tauto)]
      exact ih hcs

theorem regexOk_lit (q : String) (h : litQuery q = true) :
    regexOk ("(" ++ q ++ ")") = true := by
  unfold regexOk
  have hdata : ("(" ++ q ++ ")").data = '(' :: (q.data ++ [')']) := by
    cases q with
    | mk l => rfl
  rw [hdata, regexScan_group_open]
  apply regexScan_lit_append
  intro c hc
  have hall := List.all_eq_true.mp h c hc
  simpa using hall

theorem piecesText_map (pcs : List (List Char × Bool)) :
    piecesText (pcs.map toHLPiece) = ⟨joinSlices pcs⟩ := by
  induction pcs with
  | nil => rfl
  | cons pc rest ih =>
      show pieceText (toHLPiece pc) ++ piecesText (rest.map toHLPiece) = _
      have hp : pieceText (toHLPiece pc) = ⟨pc.1⟩ := by
        unfold toHLPiece
        split_ifs <;> rfl
      rw [hp, ih]
      show String.mk (pc.1 ++ joinSlices rest) = _
      rfl

theorem strNeqEmpty_data (q : String) (hq : q ≠ "") : q.data ≠ [] := by
  intro hnil
  apply hq
  cases q with
  | mk l => cases hnil; rfl

end Autocomplete

/-- C3: the claim that the match-highlighting function terminates normally
on any (label, query) pair — so that no failure mode beyond a network/parse
failure exists — fails on the code: the raw query is interpolated into the
pattern, and the query `"("` yields the pattern `"(()"`, on which the RegExp
constructor throws a `SyntaxError` (unterminated group) before any
splitting happens.  The label here is a real suggestion label that the
substring filter would keep for this query. -/
theorem c3_paren_query_throws :
    Autocomplete.highlightMatch "🇺🇸 United States Dollar ($)" "(" = .regexInvalid := by
  rfl

/-- C8 counterexample: the claim quantifies over every query, but for the
query `"["` the pattern `"([)"` is ill-formed (unterminated character
class), so `highlightMatch` throws instead of returning plain and marked
spans. -/
theorem c8_bracket_query_throws :
    Autocomplete.highlightMatch "x" "[" = .regexInvalid := by
  rfl

/-- C8 amended: for queries of ASCII characters free of regex metacharacters
the highlighting is exactly as claimed — the empty query renders nothing
extra, and a non-empty literal query splits the label into pieces whose
concatenation is the label, where every marked piece is a case-insensitive
copy of the query and every plain piece contains no case-insensitive
occurrence of the query, so each non-overlapping occurrence is marked
independently.  For queries containing metacharacters the original claim
fails (see the counterexample): the query is interpolated into the pattern
unescaped.  Queries outside the ASCII case fragment are not covered by this
embedding. -/
theorem c8_amended_literal_marking :
    (∀ t : String, Autocomplete.highlightMatch t "" = .ok []) ∧
    (∀ t q : String, q ≠ "" → Autocomplete.litQuery q = true →
      Autocomplete.asciiStr q = true →
      ∃ ps, Autocomplete.highlightMatch t q = .ok ps ∧
        Autocomplete.piecesText ps = t ∧
        (∀ x, Autocomplete.HLPiece.marked x ∈ ps →
            Autocomplete.strLower x = Autocomplete.strLower q) ∧
        (∀ x, Autocomplete.HLPiece.plain x ∈ ps →
            Autocomplete.hasOccStr q x = false)) := by
  constructor
  · intro t
    rfl
  · intro t q hq hlit hascii
    have hd : q.data ≠ [] := Autocomplete.strNeqEmpty_data q hq
    have hlen : q.length > 0 := by
      show 0 < q.data.length
      exact List.length_pos.mpr hd
    have hre := Autocomplete.regexOk_lit q hlit
    refine ⟨(Autocomplete.hlPieces q.data t.data).map Autocomplete.toHLPiece, ?_, ?_, ?_, ?_⟩
    · unfold Autocomplete.highlightMatch
      rw [if_pos hlen, if_neg (show ¬ Autocomplete.regexOk ("(" ++ q ++ ")") = false by
        rw [hre]; exact fun hfalse => by cases hfalse),
        if_pos (show (Autocomplete.litQuery q && Autocomplete.asciiStr q) = true by
          rw [hlit, hascii]; rfl)]
    · rw [Autocomplete.piecesText_map]
      unfold Autocomplete.hlPieces
      rw [Autocomplete.hlSplitF_join q.data hd _ t.data (by omega)]
    · intro x hx
      rw [List.mem_map] at hx
      obtain ⟨pc, hpc, htoeq⟩ := hx
      unfold Autocomplete.toHLPiece at htoeq
      split_ifs at htoeq with hb
      injection htoeq with hx1
      have hmem : (pc.1, true) ∈ Autocomplete.hlPieces q.data t.data := by
        rw [show ((pc.1, true) : List Char × Bool) = pc from by rw [← hb]]
        exact hpc
      have hlow := Autocomplete.hlSplitF_true_slices q.data hd _ t.data
        (by omega) pc.1 hmem
      rw [← hx1]
      unfold Autocomplete.strLower
      rw [show (String.mk pc.1).data = pc.1 from rfl, hlow]
    · intro x hx
      rw [List.mem_map] at hx
      obtain ⟨pc, hpc, htoeq⟩ := hx
      unfold Autocomplete.toHLPiece at htoeq
      split_ifs at htoeq with hb
      injection htoeq with hx1
      simp only [Bool.not_eq_true] at hb
      have hmem : (pc.1, false) ∈ Autocomplete.hlPieces q.data t.data := by
        rw [show ((pc.1, false) : List Char × Bool) = pc from by rw [← hb]]
        exact hpc
      have hclean := Autocomplete.hlSplitF_false_slices q.data hd _ t.data
        (by omega) pc.1 hmem
      rw [← hx1]
      unfold Autocomplete.hasOccStr
      rw [show (String.mk pc.1).data = pc.1 from rfl]
      exact hclean

/-- Witness for the amended C8: the scenario label `"British Pound"` with
the query `"Pound"`, and the empty query on another label. -/
theorem c8_amended_literal_marking_witness :
    Autocomplete.highlightMatch "abc" "" = .ok [] ∧
    ∃ ps, Autocomplete.highlightMatch "British Pound" "Pound" = .ok ps ∧
      Autocomplete.piecesText ps = "British Pound" ∧
      (∀ x, Autocomplete.HLPiece.marked x ∈ ps →
          Autocomplete.strLower x = Autocomplete.strLower "Pound") ∧
      (∀ x, Autocomplete.HLPiece.plain x ∈ ps →
          Autocomplete.hasOccStr "Pound" x = false) :=
  ⟨c8_amended_literal_marking.1 "abc",
   c8_amended_literal_marking.2 "British Pound" "Pound" (by decide) rfl rfl⟩
